import Mathlib

/-!
Verification of the udev device-event processing core (src/udev/udev-event.c).

The C sources are shallowly embedded: byte strings become `List Char`,
buffer capacities become explicit `Nat` arguments, and output written
through an advancing destination pointer becomes the returned list of
written characters.  Helpers from collaborating translation units that are
not part of the repository snapshot (string-util.c, libc, sd-event, the
hashmap) are modelled from the specification, and each such definition is
marked `Modelled from the spec:` in its doc comment.
-/

set_option autoImplicit false
set_option linter.unusedVariables false

/-! ### Byte / character primitives -/

/-- Model of C `isspace` in the POSIX locale: space, tab, newline,
vertical tab, form feed, carriage return. -/
def isSpaceC (c : Char) : Bool :=
  c == ' ' || c == '\t' || c == '\n' || c == '\x0b' || c == '\x0c' || c == '\r'

/-- Modelled from the spec: `UTIL_PATH_SIZE` from udev.h (header not in the
snapshot); the standard value is 1024 bytes.  Used for `attrbuf`, the
`result`/`tmp` scratch buffers and the run-list command buffer. -/
def UTIL_PATH_SIZE : Nat := 1024

/-- Modelled from the spec: `UTIL_NAME_SIZE` from udev.h (header not in the
snapshot); the standard value is 512 bytes.  Used for the `vbuf` attribute
scratch buffer. -/
def UTIL_NAME_SIZE : Nat := 512

/-- Modelled from the spec (I5, section 4.1 buffer discipline):
`strpcpy(&s, l, str)` from string-util.c (not in the snapshot) copies at
most `l - 1` characters of `str`, NUL-terminates, advances `s` past the
copied characters, and returns the remaining capacity including the byte
used by the terminator.  This model returns the copied characters; the
remaining capacity is `l` minus their count. -/
def strpcpyList (l : Nat) (str : List Char) : List Char :=
  str.take (l - 1)

/-- Modelled from the spec: `strscpy(buf, size, src)` from string-util.c
(not in the snapshot) copies at most `size - 1` characters and
NUL-terminates; this model returns the characters stored in `buf`. -/
def strscpyList (size : Nat) (str : List Char) : List Char :=
  str.take (size - 1)

/-- Association lookup used to model the device property / sysattr accessor
surface (`udev_device_get_property_value`, `udev_device_get_sysattr_value`),
which is an external collaborator (section 6). -/
def lookupProp : List (List Char × List Char) → List Char → Option (List Char)
  | [], _ => none
  | (k, v) :: rest, key => if k = key then some v else lookupProp rest key

/-- Modelled from the spec (section 4.1): `util_replace_whitespace`
collapses every contiguous run of whitespace inside the substituted value
to a single underscore.  The `Bool` flag records whether the previous
character belonged to a whitespace run. -/
def replWSGo : Bool → List Char → List Char
  | _, [] => []
  | inRun, c :: rest =>
      if isSpaceC c then (if inRun then [] else ['_']) ++ replWSGo true rest
      else c :: replWSGo false rest

/-- Whitespace collapsing applied to a substituted value (see `replWSGo`). -/
def utilReplaceWhitespace (s : List Char) : List Char :=
  replWSGo false s

/-- Modelled from the spec (section 6): the allowed-character set for
`attr` values is the alphanumerics plus `_ . : / -`; any other byte is
replaced by `_`.
Returns the sanitized string and the number of replacements
(`util_replace_chars` is in util.c, not in the snapshot). -/
def utilReplaceChars (s : List Char) : List Char × Nat :=
  match s with
  | [] => ([], 0)
  | c :: rest =>
      let (r, n) := utilReplaceChars rest
      if c.isAlphanum || c == '_' || c == '.' || c == ':' || c == '/' || c == '-'
      then (c :: r, n) else ('_' :: r, n + 1)

/-- Modelled from the spec: the digit-consuming loop of libc `strtoul`
(base 10), returning the exact mathematical value of the digits and the
rest of the string (the `rest` out-pointer of `strtoul`).  The overflow
saturation of `strtoul` and the narrowing of its `unsigned long` result
to the C `int` `i` of line 138 are modelled by `cIntOfULong`. -/
def strtoulLoop (acc : Nat) : List Char → Nat × List Char
  | [] => (acc, [])
  | c :: rest =>
      if c.isDigit then strtoulLoop (acc * 10 + (c.toNat - 48)) rest
      else (acc, c :: rest)

/-- Entry point of the `strtoul` model (see `strtoulLoop`). -/
def strtoulDigits (s : List Char) : Nat × List Char :=
  strtoulLoop 0 s

/-! ### Data model: device and event context (section 3 of the spec,
read through the accessor calls made by udev-event.c) -/

/-- Read-only device record, holding exactly the fields udev-event.c reads
through the `udev_device_get_*` accessors.  `parentDevnode` collapses the
`udev_device_get_parent` / `udev_device_get_devnode` pair used by the
`$parent` substitution. -/
structure UdevDevice where
  sysname : List Char
  sysnum : Option (List Char)
  devpath : List Char
  devnode : Option (List Char)
  parentDevnode : Option (List Char)
  devnumMajor : Nat
  devnumMinor : Nat
  subsystem : Option (List Char)
  action : List Char
  ifindex : Int
  properties : List (List Char × List Char)
  sysattrs : List (List Char × List Char)
  devlinks : List (List Char)
  devnodeUid : Nat
  devnodeGid : Nat
  devnodeMode : Nat
deriving DecidableEq

/-- Device used when a field does not matter for a test input. -/
def emptyDevice : UdevDevice where
  sysname := []
  sysnum := none
  devpath := []
  devnode := none
  parentDevnode := none
  devnumMajor := 0
  devnumMinor := 0
  subsystem := none
  action := []
  ifindex := 0
  properties := []
  sysattrs := []
  devlinks := []
  devnodeUid := 0
  devnodeGid := 0
  devnodeMode := 0

/-- Parent device record reached through `event->dev_parent`. -/
structure UdevParent where
  sysname : List Char
  driver : Option (List Char)
  sysattrs : List (List Char × List Char)
deriving DecidableEq

/-- Per-event mutable state (`struct udev_event`), restricted to the fields
udev-event.c reads.  `subsysAttrs` models the `[subsys/kernel]attribute`
table consulted by `util_resolve_subsys_kernel` (path-util collaborator,
not in the snapshot). -/
structure UdevEvent where
  dev : UdevDevice
  devParent : Option UdevParent
  name : Option (List Char)
  programResult : Option (List Char)
  runList : List (List Char × Int)
  execDelay : Nat
  birthUsec : Nat
  ownerSet : Bool
  groupSet : Bool
  modeSet : Bool
  uid : Nat
  gid : Nat
  mode : Nat
  subsysAttrs : List (List Char × List Char)
deriving DecidableEq

/-- Event with all fields inert. -/
def emptyEvent : UdevEvent where
  dev := emptyDevice
  devParent := none
  name := none
  programResult := none
  runList := []
  execDelay := 0
  birthUsec := 0
  ownerSet := false
  groupSet := false
  modeSet := false
  uid := 0
  gid := 0
  mode := 0
  subsysAttrs := []

/-! ### Formatter (udev_event_apply_format, lines 68-409) -/

/-- The `enum subst_type` of udev-event.c. -/
inductive SubstType where
  | SUBST_UNKNOWN
  | SUBST_DEVNODE
  | SUBST_ATTR
  | SUBST_ENV
  | SUBST_KERNEL
  | SUBST_KERNEL_NUMBER
  | SUBST_DRIVER
  | SUBST_DEVPATH
  | SUBST_ID
  | SUBST_MAJOR
  | SUBST_MINOR
  | SUBST_RESULT
  | SUBST_PARENT
  | SUBST_NAME
  | SUBST_LINKS
  | SUBST_ROOT
  | SUBST_SYS
deriving DecidableEq

/-- Log records emitted by the formatter. -/
inductive LogMsg where
  | errorMissingBrace
  | errorPartNotFound
  | errorMissingAttrFile
  | debugCharsReplaced (n : Nat)
  | errorUnknownSubst
deriving DecidableEq

/-- The `subst_map` table of udev_event_apply_format (lines 285-308),
in source order: long name, `%` short form, substitution type. -/
def substMap : List (List Char × Char × SubstType) :=
  [ ("devnode".toList,  'N', SubstType.SUBST_DEVNODE),
    ("tempnode".toList, 'N', SubstType.SUBST_DEVNODE),
    ("attr".toList,     's', SubstType.SUBST_ATTR),
    ("sysfs".toList,    's', SubstType.SUBST_ATTR),
    ("env".toList,      'E', SubstType.SUBST_ENV),
    ("kernel".toList,   'k', SubstType.SUBST_KERNEL),
    ("number".toList,   'n', SubstType.SUBST_KERNEL_NUMBER),
    ("driver".toList,   'd', SubstType.SUBST_DRIVER),
    ("devpath".toList,  'p', SubstType.SUBST_DEVPATH),
    ("id".toList,       'b', SubstType.SUBST_ID),
    ("major".toList,    'M', SubstType.SUBST_MAJOR),
    ("minor".toList,    'm', SubstType.SUBST_MINOR),
    ("result".toList,   'c', SubstType.SUBST_RESULT),
    ("parent".toList,   'P', SubstType.SUBST_PARENT),
    ("name".toList,     'D', SubstType.SUBST_NAME),
    ("links".toList,    'L', SubstType.SUBST_LINKS),
    ("root".toList,     'r', SubstType.SUBST_ROOT),
    ("sys".toList,      'S', SubstType.SUBST_SYS) ]

/-- First table entry whose long name is a prefix of the text after `$`
(the `startswith` loop, lines 335-341); yields the type and the text with
the name consumed. -/
def findDollarIn : List (List Char × Char × SubstType) → List Char →
    Option (SubstType × List Char)
  | [], _ => none
  | (n, _, t) :: ms, rest =>
      if n.isPrefixOf rest then some (t, rest.drop n.length)
      else findDollarIn ms rest

/-- Dollar-form token match against the full table. -/
def findDollar (rest : List Char) : Option (SubstType × List Char) :=
  findDollarIn substMap rest

/-- First table entry whose short form equals the character after `%`
(lines 351-357). -/
def findPercentIn : List (List Char × Char × SubstType) → Char → Option SubstType
  | [], _ => none
  | (_, f, t) :: ms, c => if f = c then some t else findPercentIn ms c

/-- Percent-form token match against the full table. -/
def findPercent (c : Char) : Option SubstType :=
  findPercentIn substMap c

/-- Skip loop `while (cpos[0] != '\0' && !isspace(cpos[0])) cpos++`
(lines 154-155). -/
def skipNonSpace (s : List Char) : List Char :=
  s.dropWhile (fun c => !isSpaceC c)

/-- Skip loop `while (isspace(cpos[0])) cpos++` (lines 156-157). -/
def skipSpace (s : List Char) : List Char :=
  s.dropWhile isSpaceC

/-- The `while (--i)` part-skipping loop of `SUBST_RESULT`
(lines 153-160): returns the final value of `i` (nonzero means the
requested part was not found) and the rest of the string. -/
def skipParts : Nat → List Char → Nat × List Char
  | 0, cpos => (0, cpos)
  | 1, cpos => (0, cpos)
  | n + 2, cpos =>
      let c2 := skipSpace (skipNonSpace cpos)
      if c2 = [] then (n + 1, c2) else skipParts (n + 1) c2

/-- Modelled from the spec/ABI: `strtoul` saturates at ULONG_MAX
(2^64 - 1 on the LP64 ABI udev runs on) when the digits overflow, and the
assignment to the `int i` of line 138 narrows that `unsigned long` modulo
2^32 with two's-complement reinterpretation, so 2^32 + 5 becomes 5 and
any value above ULONG_MAX becomes -1. -/
def cIntOfULong (v : Nat) : Int :=
  if (min v (2 ^ 64 - 1)) % 2 ^ 32 < 2 ^ 31 then (((min v (2 ^ 64 - 1)) % 2 ^ 32 : Nat) : Int)
  else (((min v (2 ^ 64 - 1)) % 2 ^ 32 : Nat) : Int) - 2 ^ 32

/-- The `i = strtoul(attr, &rest, 10)` step of `SUBST_RESULT`
(lines 138 and 143-145): `i` is a C `int` (see `cIntOfULong`) and stays 0
when no attribute is present. -/
def substResultIndex (attr : Option (List Char)) : Int × List Char :=
  match attr with
  | none => (0, [])
  | some a => (cIntOfULong (strtoulDigits a).1, (strtoulDigits a).2)

/-- The `tmp` buffer of `SUBST_RESULT` after the part skip (lines
165-171): copy of the rest of the result string, truncated at the first
space unless the attribute continues with `+`. -/
def substResultTmp (rest cpos : List Char) : List Char :=
  if rest.head? = some '+' then strscpyList UTIL_PATH_SIZE cpos
  else (strscpyList UTIL_PATH_SIZE cpos).takeWhile (fun c => !(c == ' '))

/-- The `SUBST_RESULT` case of subst_format_var (lines 136-177): select
parts of `program_result`, honoring the `{N}` / `{N+}` attribute. -/
def substResultVar (ev : UdevEvent) (attr : Option (List Char)) (l : Nat) :
    List Char × List LogMsg :=
  match ev.programResult with
  | none => ([], [])
  | some pr =>
      if 0 < (substResultIndex attr).1 then
        if 0 < (skipParts (substResultIndex attr).1.toNat
                  (strscpyList UTIL_PATH_SIZE pr)).1
        then ([], [LogMsg.errorPartNotFound])
        else
          (strpcpyList l
             (substResultTmp (substResultIndex attr).2
                (skipParts (substResultIndex attr).1.toNat
                  (strscpyList UTIL_PATH_SIZE pr)).2),
           [])
      else (strpcpyList l pr, [])

/-- Value resolution of the `SUBST_ATTR` case (lines 189-199): try
`util_resolve_subsys_kernel` for a `[subsys/kernel]attr` argument (which
reads into `vbuf`, hence the size bound), then the device sysattr, then
the parent device sysattr. -/
def substAttrValue (ev : UdevEvent) (a : List Char) : Option (List Char) :=
  match (if a.head? = some '[' then lookupProp ev.subsysAttrs a else none) with
  | some v => some (strscpyList UTIL_NAME_SIZE v)
  | none =>
      match lookupProp ev.dev.sysattrs a with
      | some v => some v
      | none =>
          match ev.devParent with
          | some p => lookupProp p.sysattrs a
          | none => none

/-- The `SUBST_ATTR` case of subst_format_var (lines 178-215):
resolve the value, strip trailing whitespace, sanitize the character
set. -/
def substAttrVar (ev : UdevEvent) (attr : Option (List Char)) (l : Nat) :
    List Char × List LogMsg :=
  match attr with
  | none => ([], [LogMsg.errorMissingAttrFile])
  | some a =>
      match substAttrValue ev a with
      | none => ([], [])
      | some v =>
          let vbuf := strscpyList UTIL_NAME_SIZE v
          let trimmed := (vbuf.reverse.dropWhile isSpaceC).reverse
          (strpcpyList l (utilReplaceChars trimmed).1,
           if 0 < (utilReplaceChars trimmed).2
           then [LogMsg.debugCharsReplaced (utilReplaceChars trimmed).2] else [])

/-- The devlink loop of `SUBST_LINKS` after the first entry
(lines 249-252): chained `strpcpyl(&s, l, " ", name + 5, NULL)` calls,
each equivalent to one `strpcpy` of the concatenation. -/
def foldLinks : List (List Char) → Nat → List Char
  | [], _ => []
  | link :: rest, l =>
      let w := strpcpyList l (' ' :: link.drop 5)
      w ++ foldLinks rest (l - w.length)

/-- The `SUBST_LINKS` case (lines 241-254): first devlink without the
`/dev/` prefix, then space-separated further devlinks. -/
def substLinksVar (ev : UdevEvent) (l : Nat) : List Char :=
  match ev.dev.devlinks with
  | [] => []
  | first :: rest =>
      let w1 := strpcpyList l (first.drop 5)
      w1 ++ foldLinks rest (l - w1.length)

/-- subst_format_var (lines 88-279): produce the characters written for
one substitution given capacity `l`, together with the log records. -/
def subst_format_var (ev : UdevEvent) (t : SubstType) (attr : Option (List Char))
    (l : Nat) : List Char × List LogMsg :=
  match t with
  | SubstType.SUBST_DEVPATH => (strpcpyList l ev.dev.devpath, [])
  | SubstType.SUBST_KERNEL => (strpcpyList l ev.dev.sysname, [])
  | SubstType.SUBST_KERNEL_NUMBER =>
      (match ev.dev.sysnum with
       | none => []
       | some s => strpcpyList l s, [])
  | SubstType.SUBST_ID =>
      (match ev.devParent with
       | none => []
       | some p => strpcpyList l p.sysname, [])
  | SubstType.SUBST_DRIVER =>
      (match ev.devParent with
       | none => []
       | some p =>
           match p.driver with
           | none => []
           | some d => strpcpyList l d, [])
  | SubstType.SUBST_MAJOR => (strpcpyList l (Nat.toDigits 10 ev.dev.devnumMajor), [])
  | SubstType.SUBST_MINOR => (strpcpyList l (Nat.toDigits 10 ev.dev.devnumMinor), [])
  | SubstType.SUBST_RESULT => substResultVar ev attr l
  | SubstType.SUBST_ATTR => substAttrVar ev attr l
  | SubstType.SUBST_PARENT =>
      (match ev.dev.parentDevnode with
       | none => []
       | some dn => strpcpyList l (dn.drop 5), [])
  | SubstType.SUBST_DEVNODE =>
      (match ev.dev.devnode with
       | none => []
       | some dn => strpcpyList l dn, [])
  | SubstType.SUBST_NAME =>
      (match ev.name with
       | some n => strpcpyList l n
       | none =>
           match ev.dev.devnode with
           | some dn => strpcpyList l (dn.drop 5)
           | none => strpcpyList l ev.dev.sysname, [])
  | SubstType.SUBST_LINKS => (substLinksVar ev l, [])
  | SubstType.SUBST_ROOT => (strpcpyList l ("/dev".toList), [])
  | SubstType.SUBST_SYS => (strpcpyList l ("/sys".toList), [])
  | SubstType.SUBST_ENV =>
      match attr with
      | none => ([], [])
      | some a =>
          match lookupProp ev.dev.properties a with
          | none => ([], [])
          | some v => (strpcpyList l v, [])
  | SubstType.SUBST_UNKNOWN => ([], [LogMsg.errorUnknownSubst])

/-- Brace-argument scan of udev_event_apply_format (lines 372-381): scan
up to the closing brace, `none` when the string ends first (missing
closing brace). -/
def scanBraceArg : List Char → Option (List Char × List Char)
  | [] => none
  | c :: rest =>
      if c = '}' then some ([], rest)
      else
        match scanBraceArg rest with
        | none => none
        | some (a, r) => some (c :: a, r)

/-- One substituted chunk including the whitespace filter of lines
392-399: `util_replace_whitespace` is applied unless the type is
`SUBST_RESULT` or `replace_whitespace` is unset. -/
def substChunk (ev : UdevEvent) (rws : Bool) (t : SubstType)
    (attr : Option (List Char)) (l : Nat) : List Char × List LogMsg :=
  let (w, lg) := subst_format_var ev t attr l
  (if rws ∧ t ≠ SubstType.SUBST_RESULT then utilReplaceWhitespace w else w, lg)

/-- Emit one substitution chunk and continue scanning with `go`
(lines 392-402): the written length is subtracted from the capacity. -/
def substApply (ev : UdevEvent) (rws : Bool)
    (go : List Char → Nat → List Char × Nat × List LogMsg)
    (t : SubstType) (attr : Option (List Char)) (rem : List Char) (l : Nat) :
    List Char × Nat × List LogMsg :=
  let (w, lg) := substChunk ev rws t attr l
  let (o, l', lg2) := go rem (l - w.length)
  (w ++ o, l', lg ++ lg2)

/-- The `subst:` label of udev_event_apply_format (lines 370-402):
extract an optional `{attr}` argument, then substitute.  A missing closing
brace logs an error and terminates expansion; an argument of
`UTIL_PATH_SIZE` bytes or more terminates expansion silently. -/
def substPart (ev : UdevEvent) (rws : Bool)
    (go : List Char → Nat → List Char × Nat × List LogMsg)
    (t : SubstType) (from_ : List Char) (l : Nat) :
    List Char × Nat × List LogMsg :=
  match from_ with
  | '{' :: u =>
      match scanBraceArg u with
      | none => ([], l, [LogMsg.errorMissingBrace])
      | some (arg, rem) =>
          if UTIL_PATH_SIZE ≤ arg.length then ([], l, [])
          else substApply ev rws go t (some arg) rem l
  | _ => substApply ev rws go t none from_ l

/-- The `copy:` label (lines 359-366): copy one character if at least two
bytes (the character and the NUL) remain, else terminate expansion. -/
def copyStep (go : List Char → Nat → List Char × Nat × List LogMsg)
    (ch : Char) (cont : List Char) (l : Nat) : List Char × Nat × List LogMsg :=
  if l < 2 then ([], l, [])
  else
    let (o, l', lg) := go cont (l - 1)
    (ch :: o, l', lg)

/-- One iteration of the scanning loop of udev_event_apply_format
(lines 319-367): dispatch on the head character.  `$$` and `%%` copy one
literal; a matched token substitutes; an unmatched `$` or `%` falls
through to the copy label. -/
def fmtStep (ev : UdevEvent) (rws : Bool)
    (go : List Char → Nat → List Char × Nat × List LogMsg) :
    List Char → Nat → List Char × Nat × List LogMsg
  | [], l => ([], l, [])
  | c :: rest, l =>
      if c = '$' then
        if rest.head? = some '$' then copyStep go '$' rest.tail l
        else
          match findDollar rest with
          | some (t, rest') => substPart ev rws go t rest' l
          | none => copyStep go '$' rest l
      else if c = '%' then
        if rest.head? = some '%' then copyStep go '%' rest.tail l
        else
          match rest with
          | f :: rest2 =>
              (match findPercent f with
               | some t => substPart ev rws go t rest2 l
               | none => copyStep go '%' rest l)
          | [] => copyStep go '%' rest l
      else copyStep go c rest l

/-- Fuelled scanning loop; every iteration consumes at least one source
character, so `src.length + 1` units of fuel always complete the scan. -/
def applyFmtGo (ev : UdevEvent) (rws : Bool) :
    Nat → List Char → Nat → List Char × Nat × List LogMsg
  | 0, _, l => ([], l, [])
  | fuel + 1, from_, l => fmtStep ev rws (applyFmtGo ev rws fuel) from_ l

/-- udev_event_apply_format (lines 281-409).  Returns the characters
written before the final NUL, the returned remaining capacity (the value
of `l` at the `out:` label), and the log records. -/
def udev_event_apply_format (ev : UdevEvent) (src : List Char) (size : Nat)
    (rws : Bool) : List Char × Nat × List LogMsg :=
  applyFmtGo ev rws (src.length + 1) src size

/-- The destination buffer contents after the final `s[0] = '\0'`
(lines 406-407). -/
def destContent (r : List Char × Nat × List LogMsg) : List Char :=
  r.1 ++ [Char.ofNat 0]

/-! ### Spawner (Spawn, on_spawn_io, on_spawn_sigchld, spawn_wait,
udev_event_spawn, lines 29-41 and 411-657) -/

/-- Log level of systemd's logging collaborator (symbolic). -/
inductive LogLevel where
  | debug
  | info
  | warning
  | error
deriving DecidableEq

/-- Log records emitted by the spawner. -/
inductive SpawnLog where
  | processSucceeded
  | processFailedExit (status : Nat) (lvl : LogLevel)
  | processKilledSignal
  | processFailedUnknown
  | failedToWaitCmd
  | timedOutKilling
deriving DecidableEq

/-- The `si_code` values handled by on_spawn_sigchld. -/
inductive SiCode where
  | exited
  | killed
  | dumped
  | other
deriving DecidableEq

/-- The fields of `siginfo_t` read by on_spawn_sigchld. -/
structure SigInfo where
  code : SiCode
  status : Nat
deriving DecidableEq

/-- The errno constant `EIO` (5). -/
def EIO_errno : Int := 5

/-- on_spawn_sigchld (lines 484-513): returns the exit code passed to
`sd_event_exit` and the log records.  A zero exit status exits the loop
with 0; every other case falls through to `sd_event_exit(-EIO)`, with
`accept_failure` selecting the log level of the nonzero-exit record. -/
def on_spawn_sigchld (acceptFailure : Bool) (si : SigInfo) : Int × List SpawnLog :=
  match si.code with
  | SiCode.exited =>
      if si.status = 0 then (0, [SpawnLog.processSucceeded])
      else (-EIO_errno, [SpawnLog.processFailedExit si.status
                     (if acceptFailure then LogLevel.debug else LogLevel.warning)])
  | SiCode.killed => (-EIO_errno, [SpawnLog.processKilledSignal])
  | SiCode.dumped => (-EIO_errno, [SpawnLog.processKilledSignal])
  | SiCode.other => (-EIO_errno, [SpawnLog.processFailedUnknown])

/-- Absolute timer deadlines registered by spawn_wait. -/
structure SpawnTimers where
  warnDeadline : Option Nat
  killDeadline : Option Nat
deriving DecidableEq

/-- The timer-arming block of spawn_wait (lines 525-550): with a nonzero
kill timeout and `age = now - event_birth_usec` below it, the elapsed age
is subtracted from both relative deadlines and the warn timer is armed
only when `0 < warn < kill` and `warn > age`; when `age >= kill` no timer
is armed at all. -/
def spawn_wait_timers (timeoutUsec timeoutWarnUsec eventBirthUsec nowUsec : Nat) :
    SpawnTimers :=
  if 0 < timeoutUsec then
    let age := nowUsec - eventBirthUsec
    if age < timeoutUsec then
      { warnDeadline :=
          if 0 < timeoutWarnUsec ∧ timeoutWarnUsec < timeoutUsec ∧ age < timeoutWarnUsec
          then some (nowUsec + (timeoutWarnUsec - age)) else none,
        killDeadline := some (nowUsec + (timeoutUsec - age)) }
    else { warnDeadline := none, killDeadline := none }
  else { warnDeadline := none, killDeadline := none }

/-- Modelled from the spec (section 5, suspension points): outcome of the
sd-event loop of spawn_wait (sd-event is an external collaborator).  When
a kill timer is armed and expires no later than the child's exit time,
on_spawn_timeout sends SIGKILL (logging the timeout) and the subsequent
`CLD_KILLED` sigchld exits the loop with `-EIO`; otherwise the loop exits
with the on_spawn_sigchld result for the child's own `siginfo`. -/
def spawnWaitOutcome (timers : SpawnTimers) (childExitUsec : Nat) (si : SigInfo)
    (acceptFailure : Bool) : Int × List SpawnLog :=
  match timers.killDeadline with
  | some d =>
      if d ≤ childExitUsec then
        (-EIO_errno, [SpawnLog.timedOutKilling, SpawnLog.processKilledSignal])
      else on_spawn_sigchld acceptFailure si
  | none => on_spawn_sigchld acceptFailure si

/-- Return-value plumbing of udev_event_spawn after spawn_wait
(lines 649-656): a negative loop exit code is logged
(`Failed to wait spawned command`) and returned; a non-negative one is
returned as is. -/
def udevEventSpawnReturn (loopExit : Int) : Int × List SpawnLog :=
  if loopExit < 0 then (loopExit, [SpawnLog.failedToWaitCmd]) else (loopExit, [])

/-- Composition of on_spawn_sigchld, spawn_wait's exit-code propagation and
udev_event_spawn's return path for a reaped child (no timeout pending). -/
def udevEventSpawnModel (acceptFailure : Bool) (si : SigInfo) : Int × List SpawnLog :=
  let (code, lg) := on_spawn_sigchld acceptFailure si
  let (r, lg2) := udevEventSpawnReturn code
  (r, lg ++ lg2)

/-- State of the stdout capture in on_spawn_io: the bytes accumulated in
`spawn->result` (its length is `result_len`) and the bytes pending in the
stdout pipe. -/
structure IOState where
  res : List Char
  pipe : List Char
deriving DecidableEq

/-- on_spawn_io for the stdout/result path (lines 411-439): with
`size = result_size - result_len`, `read(fd, p, size - 1)` consumes at
most `size - 1` pending bytes (modelled as exactly
`min pending (size - 1)`, the nonblocking-read contract of the pipe
collaborator), appends them to the buffer and advances `result_len`. -/
def onSpawnIOStep (cap : Nat) (st : IOState) : IOState :=
  let size := cap - st.res.length
  let n := min st.pipe.length (size - 1)
  { res := st.res ++ st.pipe.take n, pipe := st.pipe.drop n }

/-- Driver for the io source: each arrival appends bytes to the pipe and
runs one readiness callback. -/
def runSpawnReads (cap : Nat) (st : IOState) : List (List Char) → IOState
  | [] => st
  | a :: rest => runSpawnReads cap (onSpawnIOStep cap { st with pipe := st.pipe ++ a }) rest

/-- The result buffer as seen by the caller of udev_event_spawn after
`result[spawn.result_len] = '\0'` (line 654). -/
def spawnResultBuf (cap : Nat) (arrivals : List (List Char)) : List Char :=
  (runSpawnReads cap { res := [], pipe := [] } arrivals).res ++ [Char.ofNat 0]

/-! ### Orchestrator (udev_event_execute_rules, lines 678-776) -/

/-- Calls udev_event_execute_rules makes into its collaborators, in
program order. -/
inductive OrchStep where
  | readDb
  | tagIndexClear
  | deleteDb
  | watchEnd
  | rulesApply
  | nodeRemove
  | cloneDb
  | copyProps
  | renameOk
  | renameFailLog
  | updateOldLinks
  | nodeAdd (apply : Bool) (mode uid gid : Nat)
  | usecInit
  | tagIndexWrite
  | updateDb
  | setInitialized
deriving DecidableEq

/-- udev_event_execute_rules (lines 678-776) as the trace of collaborator
calls.  `rulesMut` is the mutation the rules engine applies to the event
and `rulesRet` the value returned by `udev_rules_apply_to_event`
(the rules engine is an external collaborator); the call sites at lines
695-697 and 713-715 do not use that value.  `cloneOk` models whether
`udev_device_clone_with_db` succeeds, `renameWorks` whether rename_netif
succeeds. -/
def udev_event_execute_rules (ev : UdevEvent) (rulesMut : UdevEvent → UdevEvent)
    (rulesRet : Int) (cloneOk : Bool) (renameWorks : Bool) : List OrchStep :=
  match ev.dev.subsystem with
  | none => []
  | some _ =>
      if ev.dev.action = ("remove".toList) then
        [OrchStep.readDb, OrchStep.tagIndexClear, OrchStep.deleteDb]
        ++ (if ev.dev.devnumMajor ≠ 0 then [OrchStep.watchEnd] else [])
        ++ [OrchStep.rulesApply]
        ++ (if ev.dev.devnumMajor ≠ 0 then [OrchStep.nodeRemove] else [])
      else
        let pre := [OrchStep.cloneDb]
          ++ (if cloneOk ∧ ev.dev.devnumMajor ≠ 0 then [OrchStep.watchEnd] else [])
          ++ (if cloneOk ∧ ev.dev.devnumMajor = 0 ∧ ev.dev.action = ("move".toList)
              then [OrchStep.copyProps] else [])
        let ev2 := rulesMut ev
        let renCond : Bool :=
          decide (0 < ev2.dev.ifindex) && decide (ev2.dev.action = ("add".toList)) &&
          (match ev2.name with
           | some n => decide (¬ n = ev2.dev.sysname)
           | none => false)
        let renSteps :=
          if renCond then
            (if renameWorks then [OrchStep.renameOk] else [OrchStep.renameFailLog])
          else []
        let nodeSteps :=
          if 0 < ev2.dev.devnumMajor then
            (if cloneOk then [OrchStep.updateOldLinks] else [])
            ++ (let u := if ev2.ownerSet then ev2.uid else ev2.dev.devnodeUid
                let g := if ev2.groupSet then ev2.gid else ev2.dev.devnodeGid
                let m := if ev2.modeSet then ev2.mode
                         else if 0 < ev2.dev.devnodeMode then ev2.dev.devnodeMode
                         else if 0 < g then 0o660 else 0o600
                let ap := ev2.dev.action = ("add".toList) ∨ ev2.ownerSet ∨ ev2.groupSet
                          ∨ ev2.modeSet
                [OrchStep.nodeAdd ap m u g])
          else []
        pre ++ (OrchStep.rulesApply ::
          (renSteps ++ (nodeSteps ++
            [OrchStep.usecInit, OrchStep.tagIndexWrite, OrchStep.updateDb,
             OrchStep.setInitialized])))

/-! ### Run-list executor (udev_event_execute_run, lines 778-800) -/

/-- Calls udev_event_execute_run makes per entry. -/
inductive RunStep where
  | builtinRun (cmd : List Char) (tag : Int) (res : Int)
  | sleepSecs (n : Nat)
  | spawnRun (cmd : List Char) (res : Int)
deriving DecidableEq

/-- Execution of one run-list entry (lines 783-798): expand the template
with the event state at execution time into a `UTIL_PATH_SIZE` buffer
without whitespace replacement, then dispatch: an in-range builtin tag
runs the builtin, otherwise an optional `exec_delay` sleep precedes an
external spawn with `accept_failure` unset and no result buffer.
`builtinRes` and `spawnRes` give the collaborators' return values, which
the loop ignores. -/
def runEntry (ev : UdevEvent) (builtinMax : Int)
    (builtinRes spawnRes : List Char → Int) (e : List Char × Int) : List RunStep :=
  let command := (udev_event_apply_format ev e.1 UTIL_PATH_SIZE false).1
  if 0 ≤ e.2 ∧ e.2 < builtinMax then
    [RunStep.builtinRun command e.2 (builtinRes command)]
  else
    (if 0 < ev.execDelay then [RunStep.sleepSecs ev.execDelay] else [])
    ++ [RunStep.spawnRun command (spawnRes command)]

/-- The `HASHMAP_FOREACH_KEY` loop body iterated over the remaining
entries. -/
def execRunGo (ev : UdevEvent) (builtinMax : Int)
    (builtinRes spawnRes : List Char → Int) : List (List Char × Int) → List RunStep
  | [] => []
  | e :: rest => runEntry ev builtinMax builtinRes spawnRes e
                 ++ execRunGo ev builtinMax builtinRes spawnRes rest

/-- udev_event_execute_run (lines 778-800).  Modelled from the spec for
the iteration order: `run_list` is stored in a systemd `Hashmap` (not in
the snapshot) which the spec declares an insertion-ordered map
(section 3, I4), so the model iterates the entries as an
insertion-ordered list. -/
def udev_event_execute_run (ev : UdevEvent) (builtinMax : Int)
    (builtinRes spawnRes : List Char → Int) : List RunStep :=
  execRunGo ev builtinMax builtinRes spawnRes ev.runList

/-! ### Concrete inputs used by the witnesses and counterexamples -/

/-- Device of the formatter scenarios: sysname `sda1`. -/
def devSda1 : UdevDevice :=
  { emptyDevice with sysname := "sda1".toList }

/-- Event of the formatter scenarios. -/
def evSda1 : UdevEvent :=
  { emptyEvent with dev := devSda1 }

/-- Event whose `program_result` is `alpha beta  gamma delta`
(scenario 1 of section 8). -/
def evResult : UdevEvent :=
  { emptyEvent with dev := devSda1,
                    programResult := some ("alpha beta  gamma delta".toList) }

/-- Event whose `program_result` separates two parts with a tab. -/
def evResultTab : UdevEvent :=
  { emptyEvent with dev := devSda1,
                    programResult := some ['a', '\t', 'b'] }

/-- Event for the orchestrator: subsystem `block`, action `add`,
devnum major 8. -/
def evBlockAdd : UdevEvent :=
  { emptyEvent with dev :=
      { emptyDevice with sysname := "sda1".toList,
                         subsystem := some ("block".toList),
                         action := "add".toList,
                         devnumMajor := 8 } }

/-- Forget the collaborator return value recorded in a run step (used to
state that the executed commands do not depend on earlier entries'
results). -/
def runStepShape : RunStep → RunStep
  | RunStep.builtinRun c t _ => RunStep.builtinRun c t 0
  | RunStep.sleepSecs n => RunStep.sleepSecs n
  | RunStep.spawnRun c _ => RunStep.spawnRun c 0

/-! ### Structured program_result strings for the `result` substitution.
A value of the shape `mkPR p0 rest` is a first part `p0` followed, for
each `(g, p)` in `rest`, by a separator of `g` spaces and the part `p`;
this is exactly a string whose 1-indexed whitespace split is
`prParts p0 rest` when every part is nonempty and whitespace-free and
every gap is positive. -/

/-- Build a program_result string from a first part and gap/part pairs. -/
def mkPR (p0 : List Char) (rest : List (Nat × List Char)) : List Char :=
  p0 ++ (rest.map (fun gp => List.replicate gp.1 ' ' ++ gp.2)).flatten

/-- The 1-indexed parts of `mkPR p0 rest` (as a 0-indexed list). -/
def prParts (p0 : List Char) (rest : List (Nat × List Char)) : List (List Char) :=
  p0 :: rest.map Prod.snd

/-- The suffix of `mkPR p0 rest` that starts at part index `k`
(0-based), keeping the original separators. -/
def prSuffix (p0 : List Char) (rest : List (Nat × List Char)) : Nat → List Char
  | 0 => mkPR p0 rest
  | k + 1 =>
      match rest with
      | [] => []
      | gp :: rest' => prSuffix gp.2 rest' k

/-- A part is admissible when nonempty and free of whitespace. -/
def goodPart (p : List Char) : Bool :=
  !p.isEmpty && p.all (fun c => !isSpaceC c)

/-- Gap/part pairs are admissible when every gap is positive and every
part admissible. -/
def goodGaps (rest : List (Nat × List Char)) : Bool :=
  rest.all (fun gp => decide (1 ≤ gp.1) && goodPart gp.2)

/-- Numeric value of a decimal digit string. -/
def digitsVal (ds : List Char) : Nat :=
  ds.foldl (fun a c => a * 10 + (c.toNat - 48)) 0

/-- Whether every character is a decimal digit. -/
def allDigits (ds : List Char) : Bool :=
  ds.all Char.isDigit

/-- Structured form of the scenario string `alpha beta  gamma delta`:
gap/part pairs after the first part `alpha`. -/
def prAlphaRest : List (Nat × List Char) :=
  [(1, "beta".toList), (2, "gamma".toList), (1, "delta".toList)]

/-- Event whose `program_result` starts with a space: ` a b`. -/
def evResultLead : UdevEvent :=
  { emptyEvent with dev := devSda1, programResult := some [' ', 'a', ' ', 'b'] }

/-- Event whose `program_result` is 1202 bytes long: 1200 `a`s, a space
and a final part `b`. -/
def evResultLong : UdevEvent :=
  { emptyEvent with dev := devSda1,
                    programResult := some (List.replicate 1200 'a' ++ [' ', 'b']) }

/-- Event whose `program_result` has five parts `p1 p2 p3 p4 p5`. -/
def evParts5 : UdevEvent :=
  { emptyEvent with dev := devSda1,
                    programResult := some ("p1 p2 p3 p4 p5".toList) }

/-! ## Theorems -/

/-! ### Capacity bounds of the substitution helpers -/

theorem strpcpyList_length (l : Nat) (s : List Char) :
    (strpcpyList l s).length ≤ l - 1 := by
  simp [strpcpyList]

theorem foldLinks_length : ∀ (links : List (List Char)) (l : Nat),
    (foldLinks links l).length ≤ l - 1
  | [], l => by simp [foldLinks]
  | link :: rest, l => by
      have h1 := strpcpyList_length l (' ' :: link.drop 5)
      have h2 := foldLinks_length rest (l - (strpcpyList l (' ' :: link.drop 5)).length)
      simp only [foldLinks, List.length_append]
      omega

theorem substLinksVar_length (ev : UdevEvent) (l : Nat) :
    (substLinksVar ev l).length ≤ l - 1 := by
  unfold substLinksVar
  match ev.dev.devlinks with
  | [] => simp
  | first :: rest =>
      have h1 := strpcpyList_length l (first.drop 5)
      have h2 := foldLinks_length rest (l - (strpcpyList l (first.drop 5)).length)
      simp only [List.length_append]
      omega

theorem substResultVar_length (ev : UdevEvent) (attr : Option (List Char)) (l : Nat) :
    (substResultVar ev attr l).1.length ≤ l - 1 := by
  unfold substResultVar
  split
  · simp
  · split
    · split
      · simp
      · exact strpcpyList_length _ _
    · exact strpcpyList_length _ _

theorem substAttrVar_length (ev : UdevEvent) (attr : Option (List Char)) (l : Nat) :
    (substAttrVar ev attr l).1.length ≤ l - 1 := by
  unfold substAttrVar
  repeat' split
  all_goals first
    | exact strpcpyList_length _ _
    | simp

theorem subst_format_var_length (ev : UdevEvent) (t : SubstType)
    (attr : Option (List Char)) (l : Nat) :
    (subst_format_var ev t attr l).1.length ≤ l - 1 := by
  cases t <;>
    dsimp only [subst_format_var] <;>
    (repeat' split) <;>
    first
      | exact substResultVar_length _ _ _
      | exact substAttrVar_length _ _ _
      | exact substLinksVar_length _ _
      | exact strpcpyList_length _ _
      | simp

theorem replWSGo_length : ∀ (b : Bool) (s : List Char),
    (replWSGo b s).length ≤ s.length
  | _, [] => by simp [replWSGo]
  | b, c :: rest => by
      by_cases h : isSpaceC c = true
      · have h1 := replWSGo_length true rest
        cases b <;> simp [replWSGo, h] <;> omega
      · have h1 := replWSGo_length false rest
        simp [replWSGo, h]
        omega

theorem utilReplaceWhitespace_length (s : List Char) :
    (utilReplaceWhitespace s).length ≤ s.length :=
  replWSGo_length false s

theorem substChunk_length (ev : UdevEvent) (rws : Bool) (t : SubstType)
    (attr : Option (List Char)) (l : Nat) :
    (substChunk ev rws t attr l).1.length ≤ l - 1 := by
  have h1 := subst_format_var_length ev t attr l
  rcases hw : subst_format_var ev t attr l with ⟨w, lg⟩
  rw [hw] at h1
  simp only [substChunk, hw]
  split
  · exact Nat.le_trans (utilReplaceWhitespace_length _) h1
  · exact h1

/-! ### The capacity invariant of the scanning loop -/

theorem copyStep_inv (go : List Char → Nat → List Char × Nat × List LogMsg)
    (hgo : ∀ rem l, 1 ≤ l → 1 ≤ (go rem l).2.1 ∧ (go rem l).1.length + (go rem l).2.1 = l)
    (ch : Char) (cont : List Char) (l : Nat) (hl : 1 ≤ l) :
    1 ≤ (copyStep go ch cont l).2.1 ∧
    (copyStep go ch cont l).1.length + (copyStep go ch cont l).2.1 = l := by
  unfold copyStep
  split
  · simpa using hl
  · rcases hg : go cont (l - 1) with ⟨o, l', lg⟩
    have h2 := hgo cont (l - 1) (by omega)
    rw [hg] at h2
    simp only [hg, List.length_cons] at h2 ⊢
    omega

theorem substApply_inv (ev : UdevEvent) (rws : Bool)
    (go : List Char → Nat → List Char × Nat × List LogMsg)
    (hgo : ∀ rem l, 1 ≤ l → 1 ≤ (go rem l).2.1 ∧ (go rem l).1.length + (go rem l).2.1 = l)
    (t : SubstType) (attr : Option (List Char)) (rem : List Char) (l : Nat)
    (hl : 1 ≤ l) :
    1 ≤ (substApply ev rws go t attr rem l).2.1 ∧
    (substApply ev rws go t attr rem l).1.length + (substApply ev rws go t attr rem l).2.1 = l := by
  have hw := substChunk_length ev rws t attr l
  rcases hc : substChunk ev rws t attr l with ⟨w, lg⟩
  rw [hc] at hw
  simp only at hw
  rcases hg : go rem (l - w.length) with ⟨o, l', lg2⟩
  have h2 := hgo rem (l - w.length) (by omega)
  rw [hg] at h2
  simp only at h2
  simp only [substApply, hc, hg, List.length_append]
  omega

theorem substPart_inv (ev : UdevEvent) (rws : Bool)
    (go : List Char → Nat → List Char × Nat × List LogMsg)
    (hgo : ∀ rem l, 1 ≤ l → 1 ≤ (go rem l).2.1 ∧ (go rem l).1.length + (go rem l).2.1 = l)
    (t : SubstType) (from_ : List Char) (l : Nat) (hl : 1 ≤ l) :
    1 ≤ (substPart ev rws go t from_ l).2.1 ∧
    (substPart ev rws go t from_ l).1.length + (substPart ev rws go t from_ l).2.1 = l := by
  unfold substPart
  split
  · split
    · simpa using hl
    · split
      · simpa using hl
      · exact substApply_inv ev rws go hgo t _ _ l hl
  · exact substApply_inv ev rws go hgo t none from_ l hl

theorem fmtStep_inv (ev : UdevEvent) (rws : Bool)
    (go : List Char → Nat → List Char × Nat × List LogMsg)
    (hgo : ∀ rem l, 1 ≤ l → 1 ≤ (go rem l).2.1 ∧ (go rem l).1.length + (go rem l).2.1 = l)
    (from_ : List Char) (l : Nat) (hl : 1 ≤ l) :
    1 ≤ (fmtStep ev rws go from_ l).2.1 ∧
    (fmtStep ev rws go from_ l).1.length + (fmtStep ev rws go from_ l).2.1 = l := by
  cases from_ with
  | nil => simpa [fmtStep] using hl
  | cons c rest =>
      simp only [fmtStep]
      split
      · split
        · exact copyStep_inv go hgo _ _ l hl
        · split
          · exact substPart_inv ev rws go hgo _ _ l hl
          · exact copyStep_inv go hgo _ _ l hl
      · split
        · split
          · exact copyStep_inv go hgo _ _ l hl
          · split
            · split
              · exact substPart_inv ev rws go hgo _ _ l hl
              · exact copyStep_inv go hgo _ _ l hl
            · exact copyStep_inv go hgo _ _ l hl
        · exact copyStep_inv go hgo _ _ l hl

theorem applyFmtGo_inv (ev : UdevEvent) (rws : Bool) :
    ∀ (fuel : Nat) (from_ : List Char) (l : Nat), 1 ≤ l →
    1 ≤ (applyFmtGo ev rws fuel from_ l).2.1 ∧
    (applyFmtGo ev rws fuel from_ l).1.length + (applyFmtGo ev rws fuel from_ l).2.1 = l := by
  intro fuel
  induction fuel with
  | zero => intro from_ l hl; simpa [applyFmtGo] using hl
  | succ n ih =>
      intro from_ l hl
      exact fmtStep_inv ev rws (applyFmtGo ev rws n) ih from_ l hl

/-- C1: for every event, source string and destination capacity of at
least one byte, udev_event_apply_format writes at most `size` bytes into
the destination (the written characters plus the final NUL), the
destination ends with the NUL terminator, and the returned value is the
remaining capacity including the byte used by the terminator (so it is at
least 1 and the written characters account for exactly
`size - returned`). -/
theorem udev_event_apply_format_capacity (ev : UdevEvent) (src : List Char)
    (size : Nat) (rws : Bool) (h : 1 ≤ size) :
    (destContent (udev_event_apply_format ev src size rws)).length ≤ size ∧
    (destContent (udev_event_apply_format ev src size rws)).getLast? = some (Char.ofNat 0) ∧
    (udev_event_apply_format ev src size rws).1.length +
      (udev_event_apply_format ev src size rws).2.1 = size ∧
    1 ≤ (udev_event_apply_format ev src size rws).2.1 := by
  have h2 := applyFmtGo_inv ev rws (src.length + 1) src size h
  refine ⟨?_, ?_, h2.2, h2.1⟩
  · simp only [destContent, udev_event_apply_format, List.length_append, List.length_cons,
      List.length_nil]
    have := h2.1
    have := h2.2
    simp only [udev_event_apply_format] at *
    omega
  · simp [destContent]

/-- Witness for C1 at the overflow scenario input. -/
theorem udev_event_apply_format_capacity_witness :
    1 ≤ 3 ∧
    ((destContent (udev_event_apply_format evSda1 ("$kernel".toList) 3 false)).length ≤ 3 ∧
     (destContent (udev_event_apply_format evSda1 ("$kernel".toList) 3 false)).getLast? =
       some (Char.ofNat 0) ∧
     (udev_event_apply_format evSda1 ("$kernel".toList) 3 false).1.length +
       (udev_event_apply_format evSda1 ("$kernel".toList) 3 false).2.1 = 3 ∧
     1 ≤ (udev_event_apply_format evSda1 ("$kernel".toList) 3 false).2.1) :=
  ⟨by decide,
   udev_event_apply_format_capacity evSda1 ("$kernel".toList) 3 false (by decide)⟩

/-! ### C9: silent truncation of an overflowing substitution -/

/-- C9: for source `$kernel`, sysname `sda1` and destination capacity 3,
udev_event_apply_format produces destination content `sd` followed by the
NUL terminator and returns remaining capacity 1, i.e. 2 written bytes
(`size - returned`): the overflowing substitution is silently truncated
at the last full character and nothing is logged. -/
theorem udev_event_apply_format_overflow_scenario :
    udev_event_apply_format evSda1 ("$kernel".toList) 3 false =
      ("sd".toList, 1, []) ∧
    destContent (udev_event_apply_format evSda1 ("$kernel".toList) 3 false) =
      ['s', 'd', Char.ofNat 0] ∧
    3 - (udev_event_apply_format evSda1 ("$kernel".toList) 3 false).2.1 = 2 := by
  decide

/-! ### C7: literal dollar and percent -/

/-- C7 counterexample: a `$` or `%` that does not begin a valid token is
not logged-and-skipped; it is copied through to the output literally.
`$zzz` expands to `$zzz` and `%z` to `%z`, with no log record, so a
literal `$` reaches the output without `$$`. -/
theorem apply_format_unknown_token_counterexample :
    udev_event_apply_format evSda1 ("$zzz".toList) 10 false =
      ("$zzz".toList, 6, []) ∧
    udev_event_apply_format evSda1 ("%z".toList) 10 false =
      ("%z".toList, 8, []) ∧
    '$' ∈ (udev_event_apply_format evSda1 ("$zzz".toList) 10 false).1 ∧
    (udev_event_apply_format evSda1 ("$zzz".toList) 10 false).2.2 = [] := by
  decide

theorem applyFmtGo_nil (ev : UdevEvent) (rws : Bool) (fuel : Nat) (l : Nat) :
    applyFmtGo ev rws fuel [] l = ([], l, []) := by
  cases fuel <;> simp [applyFmtGo, fmtStep]

/-- C7 amended: `$$` emits one literal `$` and `%%` one literal `%`
(scanning continues after the doubled character); in addition, a `$` or
`%` that does not begin a valid token (and is not doubled) falls through
to the copy label: it is emitted literally, nothing is logged for it, and
scanning continues with the very next character. -/
theorem apply_format_literal_dollar_percent (ev : UdevEvent) (rws : Bool)
    (fuel : Nat) (rest : List Char) (l : Nat) (hl : 2 ≤ l) :
    (applyFmtGo ev rws (fuel + 1) ('$' :: '$' :: rest) l =
       ('$' :: (applyFmtGo ev rws fuel rest (l - 1)).1,
        (applyFmtGo ev rws fuel rest (l - 1)).2)) ∧
    (applyFmtGo ev rws (fuel + 1) ('%' :: '%' :: rest) l =
       ('%' :: (applyFmtGo ev rws fuel rest (l - 1)).1,
        (applyFmtGo ev rws fuel rest (l - 1)).2)) ∧
    (findDollar rest = none → rest.head? ≠ some '$' →
       applyFmtGo ev rws (fuel + 1) ('$' :: rest) l =
         ('$' :: (applyFmtGo ev rws fuel rest (l - 1)).1,
          (applyFmtGo ev rws fuel rest (l - 1)).2)) ∧
    (∀ f rest2, rest = f :: rest2 → findPercent f = none → f ≠ '%' →
       applyFmtGo ev rws (fuel + 1) ('%' :: rest) l =
         ('%' :: (applyFmtGo ev rws fuel rest (l - 1)).1,
          (applyFmtGo ev rws fuel rest (l - 1)).2)) ∧
    (applyFmtGo ev rws (fuel + 1) ['%'] l = (['%'], l - 1, [])) := by
  have hnl : ¬ l < 2 := by omega
  refine ⟨?_, ?_, ?_, ?_, ?_⟩
  · rcases hg : applyFmtGo ev rws fuel rest (l - 1) with ⟨o, l', lg⟩
    simp [applyFmtGo, fmtStep, copyStep, hnl, hg]
  · rcases hg : applyFmtGo ev rws fuel rest (l - 1) with ⟨o, l', lg⟩
    simp [applyFmtGo, fmtStep, copyStep, hnl, hg]
  · intro hd hne
    rcases hg : applyFmtGo ev rws fuel rest (l - 1) with ⟨o, l', lg⟩
    simp [applyFmtGo, fmtStep, copyStep, hnl, hg, hd, hne]
  · intro f rest2 hrest hf hfp
    subst hrest
    rcases hg : applyFmtGo ev rws fuel (f :: rest2) (l - 1) with ⟨o, l', lg⟩
    simp [applyFmtGo, fmtStep, copyStep, hnl, hg, hf, hfp]
  · simp [applyFmtGo, fmtStep, copyStep, hnl, applyFmtGo_nil]

/-- Witness for C7 amended at a concrete input. -/
theorem apply_format_literal_dollar_percent_witness :
    applyFmtGo evSda1 false 4 ('$' :: '$' :: ['z', 'b']) 10 =
      ('$' :: (applyFmtGo evSda1 false 3 ['z', 'b'] 9).1,
       (applyFmtGo evSda1 false 3 ['z', 'b'] 9).2) ∧
    applyFmtGo evSda1 false 4 ('$' :: ['z', 'b']) 10 =
      ('$' :: (applyFmtGo evSda1 false 3 ['z', 'b'] 9).1,
       (applyFmtGo evSda1 false 3 ['z', 'b'] 9).2) ∧
    applyFmtGo evSda1 false 4 ('%' :: ['z', 'b']) 10 =
      ('%' :: (applyFmtGo evSda1 false 3 ['z', 'b'] 9).1,
       (applyFmtGo evSda1 false 3 ['z', 'b'] 9).2) :=
  ⟨(apply_format_literal_dollar_percent evSda1 false 3 ['z', 'b'] 10 (by decide)).1,
   (apply_format_literal_dollar_percent evSda1 false 3 ['z', 'b'] 10 (by decide)).2.2.1
     (by decide) (by decide),
   (apply_format_literal_dollar_percent evSda1 false 3 ['z', 'b'] 10 (by decide)).2.2.2.1
     'z' ['b'] rfl (by decide) (by decide)⟩

/-! ### C10: oversized brace arguments abort expansion silently -/

theorem scanBraceArg_append (arg rest : List Char) (h : '}' ∉ arg) :
    scanBraceArg (arg ++ '}' :: rest) = some (arg, rest) := by
  induction arg with
  | nil => simp [scanBraceArg]
  | cons c cs ih =>
      have hc : ¬ (c = '}') := fun hh => h (hh ▸ List.mem_cons_self c cs)
      have hcs : '}' ∉ cs := fun hh => h (List.mem_cons_of_mem c hh)
      simp [scanBraceArg, hc, ih hcs]

theorem scanBraceArg_no_close (arg : List Char) (h : '}' ∉ arg) :
    scanBraceArg arg = none := by
  induction arg with
  | nil => simp [scanBraceArg]
  | cons c cs ih =>
      have hc : ¬ (c = '}') := fun hh => h (hh ▸ List.mem_cons_self c cs)
      have hcs : '}' ∉ cs := fun hh => h (List.mem_cons_of_mem c hh)
      simp [scanBraceArg, hc, ih hcs]

theorem findDollar_env (X : List Char) :
    findDollar ('e' :: 'n' :: 'v' :: '{' :: X) =
      some (SubstType.SUBST_ENV, '{' :: X) := rfl

theorem applyFmtGo_dollar_subst (ev : UdevEvent) (rws : Bool) (fuel : Nat)
    (t : SubstType) (rest' X : List Char) (l : Nat)
    (hfd : findDollar X = some (t, rest')) (hne : X.head? ≠ some '$') :
    applyFmtGo ev rws (fuel + 1) ('$' :: X) l =
      substPart ev rws (applyFmtGo ev rws fuel) t rest' l := by
  simp [applyFmtGo, fmtStep, hfd, hne]

/-- C10: a valid format token followed by a brace argument of
`UTIL_PATH_SIZE` bytes or more (with the closing brace present) silently
terminates all further expansion: no characters are emitted for the
substitution or for the rest of the source, the capacity (hence the NUL
position) is unchanged, and, unlike the missing-closing-brace case (last
conjunct), nothing is logged. -/
theorem apply_format_oversize_brace_arg (ev : UdevEvent) (rws : Bool)
    (go : List Char → Nat → List Char × Nat × List LogMsg) (t : SubstType)
    (arg rest : List Char) (l : Nat)
    (hb : '}' ∉ arg) (hlen : UTIL_PATH_SIZE ≤ arg.length) :
    substPart ev rws go t ('{' :: (arg ++ '}' :: rest)) l = ([], l, []) ∧
    udev_event_apply_format ev (['$', 'e', 'n', 'v', '{'] ++ (arg ++ '}' :: rest)) l rws =
      ([], l, []) ∧
    substPart ev rws go t ('{' :: arg) l = ([], l, [LogMsg.errorMissingBrace]) := by
  have h1 : ∀ (g : List Char → Nat → List Char × Nat × List LogMsg) (t' : SubstType),
      substPart ev rws g t' ('{' :: (arg ++ '}' :: rest)) l = ([], l, []) := by
    intro g t'
    simp [substPart, scanBraceArg_append arg rest hb, hlen]
  refine ⟨h1 go t, ?_, ?_⟩
  · have hs : ['$', 'e', 'n', 'v', '{'] ++ (arg ++ '}' :: rest) =
        '$' :: ('e' :: 'n' :: 'v' :: '{' :: (arg ++ '}' :: rest)) := rfl
    have hne : ('e' :: 'n' :: 'v' :: '{' :: (arg ++ '}' :: rest)).head? ≠ some '$' := by
      rw [List.head?_cons]; decide
    rw [udev_event_apply_format, hs]
    rw [applyFmtGo_dollar_subst ev rws _ _ _ _ l (findDollar_env _) hne]
    exact h1 _ _
  · simp [substPart, scanBraceArg_no_close arg hb]

/-- Witness for C10 with a 1024-byte brace argument. -/
theorem apply_format_oversize_brace_arg_witness :
    substPart evSda1 false (applyFmtGo evSda1 false 0) SubstType.SUBST_ENV
        ('{' :: (List.replicate 1024 'a' ++ '}' :: [])) 40 = ([], 40, []) ∧
    udev_event_apply_format evSda1
        (['$', 'e', 'n', 'v', '{'] ++ (List.replicate 1024 'a' ++ '}' :: [])) 40 false =
      ([], 40, []) ∧
    substPart evSda1 false (applyFmtGo evSda1 false 0) SubstType.SUBST_ENV
        ('{' :: List.replicate 1024 'a') 40 = ([], 40, [LogMsg.errorMissingBrace]) :=
  apply_format_oversize_brace_arg evSda1 false (applyFmtGo evSda1 false 0)
    SubstType.SUBST_ENV (List.replicate 1024 'a') [] 40
    (by intro hm; rw [List.mem_replicate] at hm; exact absurd hm.2 (by decide))
    (by rw [List.length_replicate]; decide)

/-! ### C2: nonzero child exit status -/

/-- C2 counterexample: with `accept_failure` set and a child exiting with
status 3, the failure is debug-logged, but the event loop exits with
`-EIO` (not success) and udev_event_spawn returns `-EIO` (not the exit
status 3), additionally logging the wait failure. -/
theorem spawn_nonzero_exit_counterexample :
    on_spawn_sigchld true { code := SiCode.exited, status := 3 } =
      (-5, [SpawnLog.processFailedExit 3 LogLevel.debug]) ∧
    udevEventSpawnModel true { code := SiCode.exited, status := 3 } =
      (-5, [SpawnLog.processFailedExit 3 LogLevel.debug, SpawnLog.failedToWaitCmd]) ∧
    (udevEventSpawnModel true { code := SiCode.exited, status := 3 }).1 ≠ 3 ∧
    (udevEventSpawnModel true { code := SiCode.exited, status := 3 }).1 < 0 := by
  refine ⟨by decide, by decide, by decide, by decide⟩

/-- C2 amended: for a child exiting with a nonzero status,
`accept_failure` only selects the log level of the failure record (debug
when set, warning when unset); in both cases on_spawn_sigchld falls
through to `sd_event_exit(-EIO)`, so the event loop exits with `-EIO` and
udev_event_spawn logs a wait failure and returns `-EIO` — the exit status
is not returned to the caller. -/
theorem spawn_nonzero_exit_behavior (acceptFailure : Bool) (status : Nat)
    (h : status ≠ 0) :
    on_spawn_sigchld acceptFailure { code := SiCode.exited, status := status } =
      (-EIO_errno,
       [SpawnLog.processFailedExit status
          (if acceptFailure then LogLevel.debug else LogLevel.warning)]) ∧
    udevEventSpawnModel acceptFailure { code := SiCode.exited, status := status } =
      (-EIO_errno,
       [SpawnLog.processFailedExit status
          (if acceptFailure then LogLevel.debug else LogLevel.warning),
        SpawnLog.failedToWaitCmd]) := by
  constructor
  · simp [on_spawn_sigchld, h]
  · simp [udevEventSpawnModel, on_spawn_sigchld, h, udevEventSpawnReturn, EIO_errno]

/-- Witness for C2 amended. -/
theorem spawn_nonzero_exit_behavior_witness :
    on_spawn_sigchld false { code := SiCode.exited, status := 7 } =
      (-EIO_errno,
       [SpawnLog.processFailedExit 7
          (if false then LogLevel.debug else LogLevel.warning)]) ∧
    udevEventSpawnModel false { code := SiCode.exited, status := 7 } =
      (-EIO_errno,
       [SpawnLog.processFailedExit 7
          (if false then LogLevel.debug else LogLevel.warning),
        SpawnLog.failedToWaitCmd]) :=
  spawn_nonzero_exit_behavior false 7 (by decide)

/-! ### C5: timer adjustment in spawn_wait -/

/-- C5 counterexample: with kill timeout 100, warn 50, event birth 0 and
current time 150 (elapsed 150 >= kill 100), spawn_wait arms no timer at
all; a child that exits naturally much later with status 0 makes the
spawn succeed — there is no immediate timeout and the child is not
killed. -/
theorem spawn_wait_elapsed_timeout_counterexample :
    spawn_wait_timers 100 50 0 150 = { warnDeadline := none, killDeadline := none } ∧
    spawnWaitOutcome (spawn_wait_timers 100 50 0 150) 1000000000
        { code := SiCode.exited, status := 0 } false =
      (0, [SpawnLog.processSucceeded]) := by
  refine ⟨by decide, by decide⟩

/-- C5 amended: when spawn_wait starts with a nonzero kill timeout and the
elapsed time `now - event_birth_usec` is below it, the elapsed time is
subtracted from each timer's relative deadline, and the warn timer is
omitted when warn is zero, warn >= kill or warn <= elapsed; but when
kill <= elapsed, instead of an immediate timeout no timer is armed at
all, and the spawn waits indefinitely for the child's natural exit (the
loop outcome is exactly the child's own sigchld outcome, however late the
child exits). -/
theorem spawn_wait_timer_adjustment (t w b now : Nat) (hb : b ≤ now) (ht : 0 < t) :
    (now - b < t →
       spawn_wait_timers t w b now =
         { warnDeadline :=
             if 0 < w ∧ w < t ∧ now - b < w then some (now + (w - (now - b))) else none,
           killDeadline := some (now + (t - (now - b))) }) ∧
    (now - b < t → (w ≥ t ∨ w ≤ now - b) →
       (spawn_wait_timers t w b now).warnDeadline = none) ∧
    (t ≤ now - b →
       spawn_wait_timers t w b now = { warnDeadline := none, killDeadline := none }) ∧
    (t ≤ now - b → ∀ (childExit : Nat) (si : SigInfo) (af : Bool),
       spawnWaitOutcome (spawn_wait_timers t w b now) childExit si af =
         on_spawn_sigchld af si) := by
    refine ⟨?_, ?_, ?_, ?_⟩
    · intro hage
      simp [spawn_wait_timers, ht, hage]
    · intro hage hw
      simp only [spawn_wait_timers, if_pos ht, if_pos hage]
      have : ¬ (0 < w ∧ w < t ∧ now - b < w) := by omega
      simp [this]
    · intro hage
      have : ¬ (now - b < t) := by omega
      simp [spawn_wait_timers, ht, this]
    · intro hage childExit si af
      have : ¬ (now - b < t) := by omega
      simp [spawn_wait_timers, ht, this, spawnWaitOutcome]

/-- Witness for C5 amended: both the armed case arithmetic (via the first
conjunct at t = 100, w = 50, b = 0, now = 30) and the elapsed case need a
positive timeout. -/
theorem spawn_wait_timer_adjustment_witness :
    spawn_wait_timers 100 50 0 30 =
      { warnDeadline := some 50, killDeadline := some 100 } ∧
    spawn_wait_timers 100 120 0 200 = { warnDeadline := none, killDeadline := none } := by
  constructor
  · have h := (spawn_wait_timer_adjustment 100 50 0 30 (by decide) (by decide)).1
      (by decide)
    rw [h]; decide
  · exact (spawn_wait_timer_adjustment 100 120 0 200 (by decide) (by decide)).2.2.1
      (by decide)

/-! ### C6: result buffer capture -/

theorem onSpawnIOStep_inv (cap : Nat) (hcap : 1 ≤ cap) (st : IOState)
    (h1 : st.res.length ≤ cap - 1) :
    (onSpawnIOStep cap st).res.length ≤ cap - 1 ∧
    ((onSpawnIOStep cap st).res.length < cap - 1 → (onSpawnIOStep cap st).pipe = []) ∧
    (onSpawnIOStep cap st).res ++ (onSpawnIOStep cap st).pipe = st.res ++ st.pipe := by
  have hn : (st.pipe.take (min st.pipe.length (cap - st.res.length - 1))).length =
      min st.pipe.length (cap - st.res.length - 1) := by
    rw [List.length_take]
    omega
  refine ⟨?_, ?_, ?_⟩
  · simp only [onSpawnIOStep, List.length_append, hn]
    omega
  · intro hlt
    simp only [onSpawnIOStep, List.length_append, hn] at hlt ⊢
    apply List.drop_eq_nil_of_le
    omega
  · simp only [onSpawnIOStep, List.append_assoc, List.take_append_drop]

theorem runSpawnReads_inv (cap : Nat) (hcap : 1 ≤ cap) :
    ∀ (arrivals : List (List Char)) (st : IOState),
    st.res.length ≤ cap - 1 →
    (st.res.length < cap - 1 → st.pipe = []) →
    (runSpawnReads cap st arrivals).res.length ≤ cap - 1 ∧
    ((runSpawnReads cap st arrivals).res.length < cap - 1 →
       (runSpawnReads cap st arrivals).pipe = []) ∧
    (runSpawnReads cap st arrivals).res ++ (runSpawnReads cap st arrivals).pipe =
      st.res ++ st.pipe ++ arrivals.flatten
  | [], st, h1, h2 => by
      refine ⟨h1, h2, by simp [runSpawnReads]⟩
  | a :: rest, st, h1, h2 => by
      have hstep := onSpawnIOStep_inv cap hcap { st with pipe := st.pipe ++ a } h1
      have ih := runSpawnReads_inv cap hcap rest
        (onSpawnIOStep cap { st with pipe := st.pipe ++ a }) hstep.1 hstep.2.1
      refine ⟨ih.1, ih.2.1, ?_⟩
      rw [runSpawnReads, ih.2.2, hstep.2.2]
      simp [List.append_assoc]

/-- C6 counterexample: once the result buffer is full
(`result_len = result_size - 1`, here 7 of capacity 8), the readiness
callback calls `read` with count `size - 1 = 0`: no byte is consumed from
the pipe and nothing is discarded — the pending stdout stays in the pipe,
so the child is not relieved of backpressure. -/
theorem spawn_io_full_buffer_counterexample :
    onSpawnIOStep 8 { res := "abcdefg".toList, pipe := "xyz".toList } =
      { res := "abcdefg".toList, pipe := "xyz".toList } ∧
    ({ res := "abcdefg".toList, pipe := "xyz".toList } : IOState).pipe ≠ [] := by
  refine ⟨by decide, by decide⟩

/-- C6 amended: for every spawn with a result buffer of capacity at least
1, the captured length stays below the capacity, the buffer holds the
prefix of the child's stdout of length `min total (capacity - 1)` (an
oversized output is truncated, not an error), and the caller-visible
buffer is NUL-terminated within capacity; however, once the buffer is
full the readiness callback is the identity: pending pipe bytes are not
read and not discarded. -/
theorem spawn_result_capture (cap : Nat) (arrivals : List (List Char))
    (hcap : 1 ≤ cap) :
    (runSpawnReads cap { res := [], pipe := [] } arrivals).res.length < cap ∧
    (runSpawnReads cap { res := [], pipe := [] } arrivals).res =
      arrivals.flatten.take (cap - 1) ∧
    (spawnResultBuf cap arrivals).length ≤ cap ∧
    (spawnResultBuf cap arrivals).getLast? = some (Char.ofNat 0) ∧
    (∀ st : IOState, st.res.length = cap - 1 → onSpawnIOStep cap st = st) := by
  have h := runSpawnReads_inv cap hcap arrivals { res := [], pipe := [] }
    (by simp) (by simp)
  have hflat : (runSpawnReads cap { res := [], pipe := [] } arrivals).res ++
      (runSpawnReads cap { res := [], pipe := [] } arrivals).pipe =
      arrivals.flatten := by
    rw [h.2.2]; simp
  have hres : (runSpawnReads cap { res := [], pipe := [] } arrivals).res =
      arrivals.flatten.take (cap - 1) := by
    rcases Nat.lt_or_ge
        (runSpawnReads cap { res := [], pipe := [] } arrivals).res.length (cap - 1) with
      hlt | hge
    · have hp := h.2.1 hlt
      rw [← hflat, hp, List.append_nil]
      exact (List.take_of_length_le (by omega)).symm
    · have hlen : (runSpawnReads cap { res := [], pipe := [] } arrivals).res.length =
          cap - 1 := by omega
      rw [← hflat, ← hlen, List.take_left]
  refine ⟨by omega, hres, ?_, ?_, ?_⟩
  · simp only [spawnResultBuf, List.length_append, List.length_cons, List.length_nil]
    omega
  · exact List.getLast?_concat _
  · intro st hfull
    have h0 : cap - st.res.length - 1 = 0 := by omega
    simp [onSpawnIOStep, h0]

/-- Witness for C6 amended at capacity 8 with a 24-byte stdout. -/
theorem spawn_result_capture_witness :
    (runSpawnReads 8 { res := [], pipe := [] } ["hello world this is long".toList]).res.length < 8 ∧
    (runSpawnReads 8 { res := [], pipe := [] } ["hello world this is long".toList]).res =
      (["hello world this is long".toList] : List (List Char)).flatten.take 7 ∧
    (spawnResultBuf 8 ["hello world this is long".toList]).length ≤ 8 ∧
    (spawnResultBuf 8 ["hello world this is long".toList]).getLast? =
      some (Char.ofNat 0) ∧
    onSpawnIOStep 8 { res := "abcdefg".toList, pipe := "qr".toList } =
      { res := "abcdefg".toList, pipe := "qr".toList } := by
  have h := spawn_result_capture 8 ["hello world this is long".toList] (by decide)
  exact ⟨h.1, h.2.1, h.2.2.1, h.2.2.2.1,
         h.2.2.2.2 { res := "abcdefg".toList, pipe := "qr".toList } (by decide)⟩

/-! ### C3: the rules-apply return value in the orchestrator -/

/-- C3 counterexample: for a `block`/`add` event with devnum major 8, a
rules-apply call returning the error `-100` changes nothing: the
orchestrator performs the node apply, the tag-index rewrite and the
database write all the same, and logs nothing about the error. -/
theorem execute_rules_error_not_skipped_counterexample :
    udev_event_execute_rules evBlockAdd (fun e => e) (-100) true true =
      [OrchStep.cloneDb, OrchStep.watchEnd, OrchStep.rulesApply,
       OrchStep.updateOldLinks, OrchStep.nodeAdd true 384 0 0,
       OrchStep.usecInit, OrchStep.tagIndexWrite, OrchStep.updateDb,
       OrchStep.setInitialized] ∧
    OrchStep.updateDb ∈
      udev_event_execute_rules evBlockAdd (fun e => e) (-100) true true ∧
    OrchStep.tagIndexWrite ∈
      udev_event_execute_rules evBlockAdd (fun e => e) (-100) true true ∧
    OrchStep.nodeAdd true 384 0 0 ∈
      udev_event_execute_rules evBlockAdd (fun e => e) (-100) true true := by
  refine ⟨by decide, by decide, by decide, by decide⟩

/-- C3 amended: udev_event_execute_rules ignores the value returned by
the rules-apply call: the emitted trace is identical for any two return
values, and on the non-remove path the steps after the rules apply always
include the tag-index rewrite, the database write and the initialized
marker (and a node apply whenever devnum major is positive), regardless
of that return value. -/
theorem execute_rules_ignores_rules_error (ev : UdevEvent)
    (rulesMut : UdevEvent → UdevEvent) (r r' : Int) (cloneOk renameWorks : Bool)
    (s : List Char) (hsub : ev.dev.subsystem = some s)
    (hact : ev.dev.action ≠ ("remove".toList)) :
    udev_event_execute_rules ev rulesMut r cloneOk renameWorks =
      udev_event_execute_rules ev rulesMut r' cloneOk renameWorks ∧
    ∃ pre post,
      udev_event_execute_rules ev rulesMut r cloneOk renameWorks =
        pre ++ OrchStep.rulesApply :: post ∧
      OrchStep.tagIndexWrite ∈ post ∧
      OrchStep.updateDb ∈ post ∧
      OrchStep.setInitialized ∈ post ∧
      (0 < (rulesMut ev).dev.devnumMajor →
        OrchStep.nodeAdd
          ((rulesMut ev).dev.action = ("add".toList) ∨ (rulesMut ev).ownerSet ∨
            (rulesMut ev).groupSet ∨ (rulesMut ev).modeSet)
          (if (rulesMut ev).modeSet then (rulesMut ev).mode
           else if 0 < (rulesMut ev).dev.devnodeMode then (rulesMut ev).dev.devnodeMode
           else if 0 < (if (rulesMut ev).groupSet then (rulesMut ev).gid
                        else (rulesMut ev).dev.devnodeGid) then 0o660 else 0o600)
          (if (rulesMut ev).ownerSet then (rulesMut ev).uid
           else (rulesMut ev).dev.devnodeUid)
          (if (rulesMut ev).groupSet then (rulesMut ev).gid
           else (rulesMut ev).dev.devnodeGid) ∈ post) := by
  constructor
  · rfl
  · unfold udev_event_execute_rules
    rw [hsub]
    simp only
    rw [if_neg hact]
    refine ⟨_, _, rfl, by simp, by simp, by simp, ?_⟩
    intro hmaj
    rw [if_pos hmaj]
    simp [List.mem_append]

/-- Witness for C3 amended: with the concrete `block`/`add` event the
trace does not depend on the rules-apply return value. -/
theorem execute_rules_ignores_rules_error_witness :
    udev_event_execute_rules evBlockAdd (fun e => e) (-100) true true =
      udev_event_execute_rules evBlockAdd (fun e => e) 0 true true :=
  (execute_rules_ignores_rules_error evBlockAdd (fun e => e) (-100) 0 true true
    ("block".toList) rfl (by decide)).1

/-! ### C4: run-list execution -/

theorem execRunGo_eq_flatten (ev : UdevEvent) (builtinMax : Int)
    (builtinRes spawnRes : List Char → Int) :
    ∀ l : List (List Char × Int),
    execRunGo ev builtinMax builtinRes spawnRes l =
      (l.map (runEntry ev builtinMax builtinRes spawnRes)).flatten
  | [] => by simp [execRunGo]
  | e :: rest => by
      simp [execRunGo, execRunGo_eq_flatten ev builtinMax builtinRes spawnRes rest]

theorem runEntry_ne_nil (ev : UdevEvent) (builtinMax : Int)
    (builtinRes spawnRes : List Char → Int) (e : List Char × Int) :
    runEntry ev builtinMax builtinRes spawnRes e ≠ [] := by
  unfold runEntry
  split
  · simp
  · split <;> simp

theorem runEntry_shape (ev : UdevEvent) (builtinMax : Int)
    (b1 s1 b2 s2 : List Char → Int) (e : List Char × Int) :
    (runEntry ev builtinMax b1 s1 e).map runStepShape =
      (runEntry ev builtinMax b2 s2 e).map runStepShape := by
  unfold runEntry
  split
  · simp [runStepShape]
  · split <;> simp [runStepShape]

theorem execRunGo_shape (ev : UdevEvent) (builtinMax : Int)
    (b1 s1 b2 s2 : List Char → Int) :
    ∀ l : List (List Char × Int),
    (execRunGo ev builtinMax b1 s1 l).map runStepShape =
      (execRunGo ev builtinMax b2 s2 l).map runStepShape
  | [] => rfl
  | e :: rest => by
      simp only [execRunGo, List.map_append]
      rw [runEntry_shape ev builtinMax b1 s1 b2 s2 e,
          execRunGo_shape ev builtinMax b1 s1 b2 s2 rest]

/-- C4: udev_event_execute_run executes the run-list entries in their
stored (insertion) order — the trace is the concatenation, in list order,
of one nonempty segment per entry;每 each segment expands its template
with the event state passed at execution time (the final state after the
rules ran); and the executed commands are independent of the
collaborators' per-entry return values, so no entry's failure prevents
the later entries. -/
theorem udev_event_execute_run_fifo (ev : UdevEvent) (builtinMax : Int)
    (builtinRes spawnRes : List Char → Int) :
    udev_event_execute_run ev builtinMax builtinRes spawnRes =
      (ev.runList.map (runEntry ev builtinMax builtinRes spawnRes)).flatten ∧
    (∀ e, runEntry ev builtinMax builtinRes spawnRes e ≠ []) ∧
    (∀ b2 s2 : List Char → Int,
      (udev_event_execute_run ev builtinMax builtinRes spawnRes).map runStepShape =
        (udev_event_execute_run ev builtinMax b2 s2).map runStepShape) := by
  refine ⟨execRunGo_eq_flatten ev builtinMax builtinRes spawnRes ev.runList,
          runEntry_ne_nil ev builtinMax builtinRes spawnRes, ?_⟩
  intro b2 s2
  exact execRunGo_shape ev builtinMax builtinRes spawnRes b2 s2 ev.runList

/-! ### C8: part selection from program_result -/

theorem strtoulLoop_digits :
    ∀ (ds : List Char) (acc : Nat) (sfx : List Char), allDigits ds = true →
    sfx.head?.all (fun c => !c.isDigit) = true →
    strtoulLoop acc (ds ++ sfx) =
      (ds.foldl (fun a c => a * 10 + (c.toNat - 48)) acc, sfx)
  | [], acc, sfx, _, hs => by
      cases sfx with
      | nil => simp [strtoulLoop]
      | cons c r =>
          simp only [Option.all, List.head?_cons, Bool.not_eq_true'] at hs
          simp [strtoulLoop, hs]
  | d :: ds', acc, sfx, hd, hs => by
      simp only [allDigits, List.all_cons, Bool.and_eq_true] at hd
      have ih := strtoulLoop_digits ds' (acc * 10 + (d.toNat - 48)) sfx
        (by simp [allDigits, hd.2]) hs
      simp [strtoulLoop, hd.1, ih]

theorem strtoulDigits_exact (ds : List Char) (hd : allDigits ds = true) :
    strtoulDigits ds = (digitsVal ds, []) := by
  have h := strtoulLoop_digits ds 0 [] hd (by simp)
  simpa [strtoulDigits, digitsVal] using h

theorem strtoulDigits_plus (ds : List Char) (hd : allDigits ds = true) :
    strtoulDigits (ds ++ ['+']) = (digitsVal ds, ['+']) := by
  have h := strtoulLoop_digits ds 0 ['+'] hd (by decide)
  simpa [strtoulDigits, digitsVal] using h

theorem dropWhile_all_append (p : Char → Bool) :
    ∀ (l1 l2 : List Char), (∀ c ∈ l1, p c = true) →
    (l1 ++ l2).dropWhile p = l2.dropWhile p
  | [], l2, _ => rfl
  | c :: cs, l2, h => by
      have hc := h c (List.mem_cons_self c cs)
      simp only [List.cons_append, List.dropWhile_cons, hc, if_pos]
      exact dropWhile_all_append p cs l2 (fun x hx => h x (List.mem_cons_of_mem c hx))

theorem takeWhile_all_append (p : Char → Bool) :
    ∀ (l1 l2 : List Char), (∀ c ∈ l1, p c = true) →
    (l1 ++ l2).takeWhile p = l1 ++ l2.takeWhile p
  | [], l2, _ => rfl
  | c :: cs, l2, h => by
      have hc := h c (List.mem_cons_self c cs)
      simp only [List.cons_append, List.takeWhile_cons, hc, if_pos]
      rw [takeWhile_all_append p cs l2 (fun x hx => h x (List.mem_cons_of_mem c hx))]

theorem goodPart_not_space (p : List Char) (h : goodPart p = true) :
    ∀ c ∈ p, isSpaceC c = false := by
  intro c hc
  simp only [goodPart, Bool.and_eq_true, List.all_eq_true] at h
  have := h.2 c hc
  simpa using this

theorem goodPart_ne_nil (p : List Char) (h : goodPart p = true) : p ≠ [] := by
  intro hn
  subst hn
  simp [goodPart] at h

theorem mkPR_ne_nil (p0 : List Char) (rest : List (Nat × List Char))
    (h : goodPart p0 = true) : mkPR p0 rest ≠ [] := by
  have := goodPart_ne_nil p0 h
  simp [mkPR]
  intro hh
  exact absurd hh this

theorem skipNonSpace_mkPR (p0 : List Char) (rest : List (Nat × List Char))
    (h0 : goodPart p0 = true) :
    skipNonSpace (mkPR p0 rest) =
      (rest.map (fun gp => List.replicate gp.1 ' ' ++ gp.2)).flatten.dropWhile
        (fun c => !isSpaceC c) := by
  unfold skipNonSpace mkPR
  exact dropWhile_all_append _ p0 _ (by
    intro c hc
    simp [goodPart_not_space p0 h0 c hc])

theorem skip_end (p0 : List Char) (h0 : goodPart p0 = true) :
    skipSpace (skipNonSpace (mkPR p0 [])) = [] := by
  rw [skipNonSpace_mkPR p0 [] h0]
  simp [skipSpace]

theorem skip_step (p0 p1 : List Char) (g : Nat) (rest' : List (Nat × List Char))
    (h0 : goodPart p0 = true) (h1 : goodPart p1 = true) (hg : 1 ≤ g) :
    skipSpace (skipNonSpace (mkPR p0 ((g, p1) :: rest'))) = mkPR p1 rest' := by
  rw [skipNonSpace_mkPR p0 _ h0]
  obtain ⟨g', rfl⟩ : ∃ g', g = g' + 1 := ⟨g - 1, by omega⟩
  simp only [List.map_cons, List.flatten_cons, List.replicate_succ, List.cons_append]
  rw [List.dropWhile_cons_of_neg (by decide)]
  unfold skipSpace
  rw [List.dropWhile_cons_of_pos (by decide)]
  rw [List.append_assoc]
  rw [dropWhile_all_append isSpaceC (List.replicate g' ' ') _ (by
    intro c hc
    rw [List.eq_of_mem_replicate hc]
    decide)]
  obtain ⟨c, p1', rfl⟩ : ∃ c p1', p1 = c :: p1' := by
    cases p1 with
    | nil => exact absurd rfl (goodPart_ne_nil [] h1)
    | cons c p1' => exact ⟨c, p1', rfl⟩
  rw [List.cons_append, List.dropWhile_cons_of_neg (by
    simp [goodPart_not_space _ h1 c (List.mem_cons_self c p1')])]
  simp [mkPR]

theorem goodGaps_cons (g : Nat) (p : List Char) (rest : List (Nat × List Char))
    (h : goodGaps ((g, p) :: rest) = true) :
    1 ≤ g ∧ goodPart p = true ∧ goodGaps rest = true := by
  simp only [goodGaps, List.all_cons, Bool.and_eq_true, decide_eq_true_eq] at h
  exact ⟨h.1.1, h.1.2, h.2⟩

theorem skipParts_in_range :
    ∀ (N : Nat) (p0 : List Char) (rest : List (Nat × List Char)),
    goodPart p0 = true → goodGaps rest = true → 1 ≤ N → N ≤ rest.length + 1 →
    skipParts N (mkPR p0 rest) = (0, prSuffix p0 rest (N - 1))
  | 0, _, _, _, _, h1, _ => absurd h1 (by omega)
  | 1, p0, rest, _, _, _, _ => by simp [skipParts, prSuffix]
  | n + 2, p0, rest, h0, hg, h1, h2 => by
      match rest with
      | [] => simp at h2
      | (g, p1) :: rest' =>
          obtain ⟨hg1, hp1, hrest'⟩ := goodGaps_cons g p1 rest' hg
          rw [skipParts]
          simp only [skip_step p0 p1 g rest' h0 hp1 hg1]
          rw [if_neg (mkPR_ne_nil p1 rest' hp1)]
          have ih := skipParts_in_range (n + 1) p1 rest' hp1 hrest'
            (by omega) (by simp only [List.length_cons] at h2; omega)
          rw [ih]
          rfl

theorem skipParts_out_range :
    ∀ (N : Nat) (p0 : List Char) (rest : List (Nat × List Char)),
    goodPart p0 = true → goodGaps rest = true → rest.length + 2 ≤ N →
    skipParts N (mkPR p0 rest) = (N - (rest.length + 1), [])
  | 0, _, rest, _, _, h2 => absurd h2 (by omega)
  | 1, _, rest, _, _, h2 => absurd h2 (by omega)
  | n + 2, p0, rest, h0, hg, h2 => by
      match rest with
      | [] =>
          rw [skipParts]
          simp only [skip_end p0 h0]
          simp
      | (g, p1) :: rest' =>
          obtain ⟨hg1, hp1, hrest'⟩ := goodGaps_cons g p1 rest' hg
          rw [skipParts]
          simp only [skip_step p0 p1 g rest' h0 hp1 hg1]
          rw [if_neg (mkPR_ne_nil p1 rest' hp1)]
          have ih := skipParts_out_range (n + 1) p1 rest' hp1 hrest'
            (by simp only [List.length_cons] at h2; omega)
          rw [ih]
          simp only [List.length_cons]
          congr 1
          omega

theorem prSuffix_eq_mkPR :
    ∀ (k : Nat) (p0 : List Char) (rest : List (Nat × List Char)), k ≤ rest.length →
    prSuffix p0 rest k = mkPR ((prParts p0 rest).getD k []) (rest.drop k)
  | 0, p0, rest, _ => by simp [prSuffix, prParts]
  | k + 1, p0, [], h => by simp at h
  | k + 1, p0, (g, p1) :: rest', h => by
      have ih := prSuffix_eq_mkPR k p1 rest' (by simp at h; omega)
      simpa [prSuffix, prParts] using ih

theorem goodPart_getD :
    ∀ (k : Nat) (p0 : List Char) (rest : List (Nat × List Char)),
    goodPart p0 = true → goodGaps rest = true → k ≤ rest.length →
    goodPart ((prParts p0 rest).getD k []) = true
  | 0, p0, rest, h0, _, _ => by simpa [prParts] using h0
  | k + 1, p0, [], _, _, h => by simp at h
  | k + 1, p0, (g, p1) :: rest', h0, hg, h => by
      obtain ⟨_, hp1, hrest'⟩ := goodGaps_cons g p1 rest' hg
      have ih := goodPart_getD k p1 rest' hp1 hrest' (by simp at h; omega)
      simpa [prParts] using ih

theorem goodGaps_drop :
    ∀ (k : Nat) (rest : List (Nat × List Char)), goodGaps rest = true →
    goodGaps (rest.drop k) = true
  | 0, rest, h => h
  | k + 1, [], h => h
  | k + 1, gp :: rest', h => by
      have := goodGaps_cons gp.1 gp.2 rest' h
      exact goodGaps_drop k rest' this.2.2

theorem takeWhile_part (pk : List Char) (restk : List (Nat × List Char))
    (h : goodPart pk = true) (hg : goodGaps restk = true) :
    (mkPR pk restk).takeWhile (fun c => !(c == ' ')) = pk := by
  unfold mkPR
  rw [takeWhile_all_append _ pk _ (by
    intro c hc
    have := goodPart_not_space pk h c hc
    simp only [Bool.not_eq_true']
    by_contra hcc
    simp only [Bool.not_eq_false, beq_iff_eq] at hcc
    subst hcc
    simp [isSpaceC] at this)]
  match restk with
  | [] => simp
  | (g, p1) :: rest' =>
      obtain ⟨hg1, hp1, _⟩ := goodGaps_cons g p1 rest' hg
      obtain ⟨g', rfl⟩ : ∃ g', g = g' + 1 := ⟨g - 1, by omega⟩
      simp only [List.map_cons, List.flatten_cons, List.replicate_succ, List.cons_append]
      rw [List.takeWhile_cons_of_neg (by decide)]
      simp

theorem mkPR_length_cons (p0 p1 : List Char) (g : Nat)
    (rest' : List (Nat × List Char)) :
    (mkPR p1 rest').length ≤ (mkPR p0 ((g, p1) :: rest')).length := by
  simp [mkPR, List.length_append]
  omega

theorem prSuffix_length_le :
    ∀ (k : Nat) (p0 : List Char) (rest : List (Nat × List Char)),
    (prSuffix p0 rest k).length ≤ (mkPR p0 rest).length
  | 0, p0, rest => by simp [prSuffix]
  | k + 1, p0, [] => by simp [prSuffix]
  | k + 1, p0, (g, p1) :: rest' =>
      Nat.le_trans (prSuffix_length_le k p1 rest') (mkPR_length_cons p0 p1 g rest')

set_option maxRecDepth 16384 in
/-- C8 counterexample: each claimed part-selection behavior fails on a
concrete input, one per restriction of the amended claim.
With `program_result = "a<tab>b"` (whitespace-split parts `a` and `b`),
`%c{1}` emits the whole string `a<tab>b`, not part `a`: the code
truncates the tail with `strchr(tmp, ' ')` only, and a tab does not stop
it.  With a leading space (` a b`), `%c{1}` emits nothing and logs
nothing, though part 1 is `a`.  With a 1202-byte result (1200 `a`s, a
space, `b`), `%c{2}` logs `part of result string not found` and emits
nothing though part 2 exists: the 1024-byte `strscpy` copy drops it.
With five parts, `%c{4294967301}` (2^32 + 5, out of range for the split)
emits part 5 with no log — `int i` narrows the `strtoul` value — and a
part number above ULONG_MAX makes `i = -1` and emits the entire
string. -/
theorem subst_result_split_counterexample :
    (substResultVar evResultTab (some ['1']) 100 = (['a', '\t', 'b'], []) ∧
     (substResultVar evResultTab (some ['1']) 100).1 ≠ ['a']) ∧
    (substResultVar evResultLead (some ['1']) 100 = ([], []) ∧
     (substResultVar evResultLead (some ['1']) 100).1 ≠ ['a']) ∧
    substResultVar evResultLong (some ['2']) 2000 = ([], [LogMsg.errorPartNotFound]) ∧
    substResultVar evParts5 (some ("4294967301".toList)) 100 = ("p5".toList, []) ∧
    substResultVar evParts5 (some ("18446744073709551621".toList)) 100 =
      ("p1 p2 p3 p4 p5".toList, []) := by
  refine ⟨⟨by decide, by decide⟩, ⟨by decide, by decide⟩, by decide, by decide, by decide⟩

theorem cIntOfULong_small (v : Nat) (h : v < 2 ^ 31) : cIntOfULong v = (v : Int) := by
  unfold cIntOfULong
  have h1 : (min v (2 ^ 64 - 1)) % 2 ^ 32 = v := by
    rw [Nat.min_eq_left (by omega), Nat.mod_eq_of_lt (by omega)]
  rw [h1, if_pos h]

/-- C8 amended: for every `program_result` of the structured form
`mkPR p0 rest` — nonempty whitespace-free parts separated by positive
runs of plain spaces — and shorter than `UTIL_PATH_SIZE`, with a decimal
part number `N = digitsVal ds` between 1 and 2^31 - 1 (within the range
of the C `int` the `strtoul` value is narrowed to) and enough destination
capacity:
`%c` alone substitutes the entire string; `%c{N}` substitutes exactly the
N-th 1-indexed part, or logs `part of result string not found` and emits
nothing when N exceeds the number of parts; `%c{N+}` substitutes parts N
through the end with the original spacing; a `result` substitution is
returned unchanged by the whitespace-replacement step for either value of
the flag; and the literal scenario holds:
`program_result = "alpha beta  gamma delta"` with source
`"%c{2} %c{3+}"` and `replace_whitespace` set expands to
`beta gamma delta`.  (With separators that are whitespace but not the
space character, `%c{N}` emits more than the N-th part — see the
counterexample.) -/
theorem subst_result_parts (ev : UdevEvent) (p0 : List Char)
    (rest : List (Nat × List Char)) (ds : List Char) (l : Nat)
    (hpr : ev.programResult = some (mkPR p0 rest))
    (hp0 : goodPart p0 = true) (hg : goodGaps rest = true)
    (hlen : (mkPR p0 rest).length ≤ UTIL_PATH_SIZE - 1)
    (hds : allDigits ds = true) (hpos : 1 ≤ digitsVal ds)
    (hN31 : digitsVal ds < 2 ^ 31) (hl : UTIL_PATH_SIZE ≤ l) :
    substResultVar ev none l = (mkPR p0 rest, []) ∧
    (digitsVal ds ≤ rest.length + 1 →
      substResultVar ev (some ds) l =
        ((prParts p0 rest).getD (digitsVal ds - 1) [], [])) ∧
    (rest.length + 2 ≤ digitsVal ds →
      substResultVar ev (some ds) l = ([], [LogMsg.errorPartNotFound])) ∧
    (digitsVal ds ≤ rest.length + 1 →
      substResultVar ev (some (ds ++ ['+'])) l =
        (prSuffix p0 rest (digitsVal ds - 1), [])) ∧
    (∀ (rws : Bool) (attr : Option (List Char)),
      substChunk ev rws SubstType.SUBST_RESULT attr l = substResultVar ev attr l) ∧
    udev_event_apply_format evResult ("%c{2} %c{3+}".toList) 1024 true =
      ("beta gamma delta".toList, 1008, []) := by
  have hscpr : strscpyList UTIL_PATH_SIZE (mkPR p0 rest) = mkPR p0 rest :=
    List.take_of_length_le (by omega)
  refine ⟨?_, ?_, ?_, ?_, ?_, by decide⟩
  · simp only [substResultVar, hpr, substResultIndex]
    rw [if_neg (by omega)]
    unfold strpcpyList
    rw [List.take_of_length_le (by omega)]
  · intro hNle
    simp only [substResultVar, hpr, substResultIndex, strtoulDigits_exact ds hds,
      cIntOfULong_small (digitsVal ds) hN31, Int.toNat_natCast]
    rw [if_pos (show (0 : Int) < (digitsVal ds : Nat) by exact_mod_cast hpos)]
    rw [hscpr, skipParts_in_range (digitsVal ds) p0 rest hp0 hg hpos hNle]
    rw [if_neg (by simp)]
    simp only [substResultTmp]
    rw [if_neg (by simp)]
    have hsc2 : strscpyList UTIL_PATH_SIZE (prSuffix p0 rest (digitsVal ds - 1)) =
        prSuffix p0 rest (digitsVal ds - 1) :=
      List.take_of_length_le
        (Nat.le_trans (prSuffix_length_le (digitsVal ds - 1) p0 rest) (by omega))
    rw [hsc2, prSuffix_eq_mkPR (digitsVal ds - 1) p0 rest (by omega)]
    rw [takeWhile_part _ _ (goodPart_getD (digitsVal ds - 1) p0 rest hp0 hg (by omega))
      (goodGaps_drop (digitsVal ds - 1) rest hg)]
    have hplen : ((prParts p0 rest).getD (digitsVal ds - 1) []).length ≤
        (mkPR p0 rest).length := by
      have h1 := prSuffix_eq_mkPR (digitsVal ds - 1) p0 rest (by omega)
      have h2 := prSuffix_length_le (digitsVal ds - 1) p0 rest
      rw [h1] at h2
      have h3 : ((prParts p0 rest).getD (digitsVal ds - 1) []).length ≤
          (mkPR ((prParts p0 rest).getD (digitsVal ds - 1) [])
            (rest.drop (digitsVal ds - 1))).length := by
        simp [mkPR]
      omega
    unfold strpcpyList
    rw [List.take_of_length_le (by omega)]
  · intro hNgt
    simp only [substResultVar, hpr, substResultIndex, strtoulDigits_exact ds hds,
      cIntOfULong_small (digitsVal ds) hN31, Int.toNat_natCast]
    rw [if_pos (show (0 : Int) < (digitsVal ds : Nat) by exact_mod_cast hpos)]
    rw [hscpr, skipParts_out_range (digitsVal ds) p0 rest hp0 hg hNgt]
    rw [if_pos (by simp; omega)]
  · intro hNle
    simp only [substResultVar, hpr, substResultIndex, strtoulDigits_plus ds hds,
      cIntOfULong_small (digitsVal ds) hN31, Int.toNat_natCast]
    rw [if_pos (show (0 : Int) < (digitsVal ds : Nat) by exact_mod_cast hpos)]
    rw [hscpr, skipParts_in_range (digitsVal ds) p0 rest hp0 hg hpos hNle]
    rw [if_neg (by simp)]
    simp only [substResultTmp]
    rw [if_pos (by simp)]
    have hsc2 : strscpyList UTIL_PATH_SIZE (prSuffix p0 rest (digitsVal ds - 1)) =
        prSuffix p0 rest (digitsVal ds - 1) :=
      List.take_of_length_le
        (Nat.le_trans (prSuffix_length_le (digitsVal ds - 1) p0 rest) (by omega))
    rw [hsc2]
    unfold strpcpyList
    rw [List.take_of_length_le
      (Nat.le_trans (prSuffix_length_le (digitsVal ds - 1) p0 rest) (by omega))]
  · intro rws attr
    simp [substChunk, subst_format_var]

/-- Witness for C8 amended at the scenario inputs. -/
theorem subst_result_parts_witness :
    substResultVar evResult none 1024 = (mkPR ("alpha".toList) prAlphaRest, []) ∧
    substResultVar evResult (some ['2']) 1024 =
      ((prParts ("alpha".toList) prAlphaRest).getD (digitsVal ['2'] - 1) [], []) ∧
    substResultVar evResult (some (['2'] ++ ['+'])) 1024 =
      (prSuffix ("alpha".toList) prAlphaRest (digitsVal ['2'] - 1), []) ∧
    substResultVar evResult (some ['9']) 1024 = ([], [LogMsg.errorPartNotFound]) :=
  ⟨(subst_result_parts evResult ("alpha".toList) prAlphaRest ['2'] 1024
      (by decide) (by decide) (by decide) (by decide) (by decide) (by decide)
      (by decide) (by decide)).1,
   (subst_result_parts evResult ("alpha".toList) prAlphaRest ['2'] 1024
      (by decide) (by decide) (by decide) (by decide) (by decide) (by decide)
      (by decide) (by decide)).2.1 (by decide),
   (subst_result_parts evResult ("alpha".toList) prAlphaRest ['2'] 1024
      (by decide) (by decide) (by decide) (by decide) (by decide) (by decide)
      (by decide) (by decide)).2.2.2.1 (by decide),
   (subst_result_parts evResult ("alpha".toList) prAlphaRest ['9'] 1024
      (by decide) (by decide) (by decide) (by decide) (by decide) (by decide)
      (by decide) (by decide)).2.2.1 (by decide)⟩
